import Mathlib

/-!
Verification of the core of the `igp_pattern_printer` repository (crate `ipp`):
a shallow embedding of `src/ipp/src/lib.rs` and `src/ipp/src/row_builder.rs`.

Modelling conventions:
* `u8` channels and `usize` values are embedded as `Nat`.
* Rust `usize` subtraction `n - 1` is embedded as `usub1`, which wraps to
  `2^64 - 1` at `0` (release-mode wrapping semantics; debug builds panic there).
* Rust indexing `v[i]` panics when out of range, so functions that index are
  embedded as `Option`-returning functions (`none` models the panic).
* `Vec::get` is embedded as `List.get?` / `l[i]?` (`None` when out of range).
-/

/-- Models `Rgb8(pub [u8; 3])`: three 8-bit channels compared bit-exactly. -/
structure Rgb8 where
  r : Nat
  g : Nat
  b : Nat
deriving DecidableEq

/-- Models `SEPARATOR_COLOR: Rgb8 = Rgb8([32, 32, 32])`. -/
def SEPARATOR_COLOR : Rgb8 := ⟨32, 32, 32⟩

/-- Models `ColorEntry { full_name: String, one_char: String }`. -/
structure ColorEntry where
  full_name : String
  one_char : String
deriving DecidableEq

/-- Association-list lookup; models `HashMap` lookup (the first, i.e. most
recently inserted, binding for a key wins). -/
def lookupAL (l : List (Rgb8 × String)) (c : Rgb8) : Option String :=
  (l.find? (fun e => decide (e.1 = c))).map (fun e => e.2)

/-- Models `ColorMap { full_names: HashMap<Rgb8, String>, short_char: HashMap<Rgb8, String> }`.
The two hash maps are embedded as association lists where insertion conses a
new binding in front, which is observationally the overwriting `HashMap::insert`
for `contains_key` and lookup. -/
structure ColorMap where
  full_names : List (Rgb8 × String)
  short_char : List (Rgb8 × String)
deriving DecidableEq

/-- Models `ColorMap::new`. -/
def ColorMap.new : ColorMap := ⟨[], []⟩

/-- Models `ColorMap::has`: `self.full_names.contains_key(&color)`. -/
def ColorMap.has (m : ColorMap) (color : Rgb8) : Bool :=
  (lookupAL m.full_names color).isSome

/-- Models `ColorMap::add_entry`: inserts into both maps. -/
def ColorMap.add_entry (m : ColorMap) (color : Rgb8) (entry : ColorEntry) : ColorMap :=
  ⟨(color, entry.full_name) :: m.full_names, (color, entry.one_char) :: m.short_char⟩

/-- Models `ColorMap::full_name`: `&self.full_names[&color]`, which panics
(`none`) on an unregistered color. -/
def ColorMap.full_name (m : ColorMap) (color : Rgb8) : Option String :=
  lookupAL m.full_names color

/-- Models `ColorMap::one_char`: `&self.short_char[&color]`, which panics
(`none`) on an unregistered color. -/
def ColorMap.one_char (m : ColorMap) (color : Rgb8) : Option String :=
  lookupAL m.short_char color

/-- The registries reachable from `ColorMap::new()` by `add_entry` calls. -/
inductive ReachableCM : ColorMap → Prop where
  | base : ReachableCM ColorMap.new
  | step (m : ColorMap) (c : Rgb8) (e : ColorEntry) :
      ReachableCM m → ReachableCM (m.add_entry c e)

/-- Models `image::RgbImage`: a `w × h` pixel buffer in row-major order
(`data[y * w + x]` is the pixel at `(x, y)`), with the rectangularity of
`RgbImage` recorded by `hlen`. -/
structure Img where
  w : Nat
  h : Nat
  data : List Rgb8
  hlen : data.length = w * h

/-- Pixel read `img[(x, y)]`.  All reads performed by the embedded code are
in bounds (they are guarded in the source); out-of-range coordinates are
mapped to the separator color so that the function is total. -/
def getPix (img : Img) (x y : Nat) : Rgb8 :=
  if x < img.w then (img.data[y * img.w + x]?).getD SEPARATOR_COLOR
  else SEPARATOR_COLOR

/-- `getPix` on a coordinate pair. -/
def getPix2 (img : Img) (p : Nat × Nat) : Rgb8 := getPix img p.1 p.2

/-- Pixel write `img[(x, y)] = c`. -/
def setPix (img : Img) (x y : Nat) (c : Rgb8) : Img :=
  ⟨img.w, img.h, img.data.set (y * img.w + x) c, by
    rw [List.length_set]; exact img.hlen⟩

/-- Number of non-separator pixels of the buffer; the recursion depth of
`flood_fill` is bounded by it, so it serves as fuel. -/
def nonSep (img : Img) : Nat :=
  img.data.countP (fun c => decide (¬ c = SEPARATOR_COLOR))

/-- Fuel-indexed version of `flood_fill` from `src/ipp/src/lib.rs`:
if the pixel is the separator, return; otherwise repaint it to the separator
and recurse left / up / right / down (bounds-checked), exactly as the source.
`flood_fill` below instantiates the fuel with `nonSep img`, which is
sufficient (`floodFillF_fuel_stable`), so this is the total function the
source recursion computes. -/
def floodFillF : Nat → Img → Nat → Nat → Img
  | 0, img, _, _ => img
  | fuel + 1, img, x, y =>
    if getPix img x y = SEPARATOR_COLOR then img
    else
      let i1 := setPix img x y SEPARATOR_COLOR
      let i2 := if 0 < x then floodFillF fuel i1 (x - 1) y else i1
      let i3 := if 0 < y then floodFillF fuel i2 x (y - 1) else i2
      let i4 := if x + 1 < img.w then floodFillF fuel i3 (x + 1) y else i3
      if y + 1 < img.h then floodFillF fuel i4 x (y + 1) else i4

/-- Models `flood_fill(img, (x, y))`. -/
def flood_fill (img : Img) (x y : Nat) : Img := floodFillF (nonSep img) img x y

/-- 4-connectedness of two coordinates (up/down/left/right neighbors). -/
def adj (p q : Nat × Nat) : Prop :=
  (p.1 = q.1 ∧ (p.2 = q.2 + 1 ∨ q.2 = p.2 + 1)) ∨
  (p.2 = q.2 ∧ (p.1 = q.1 + 1 ∨ q.1 = p.1 + 1))

/-- In-bounds predicate for a coordinate pair. -/
def inB (img : Img) (p : Nat × Nat) : Prop := p.1 < img.w ∧ p.2 < img.h

/-- `Reach img s p`: there is a 4-connected path of in-bounds, non-separator
pixels of `img` from `s` to `p` (in particular `s` itself is in bounds and
not the separator). -/
inductive Reach (img : Img) (s : Nat × Nat) : Nat × Nat → Prop where
  | refl : inB img s → getPix2 img s ≠ SEPARATOR_COLOR → Reach img s s
  | step {q r : Nat × Nat} : Reach img s q → adj q r → inB img r →
      getPix2 img r ≠ SEPARATOR_COLOR → Reach img s r

/-- `Paints img img' S`: `img'` has the same dimensions as `img`, every pixel
in `S` is the separator in `img'`, and every pixel outside `S` is unchanged. -/
def Paints (img img' : Img) (S : Nat × Nat → Prop) : Prop :=
  img'.w = img.w ∧ img'.h = img.h ∧
  ∀ p, (S p → getPix2 img' p = SEPARATOR_COLOR) ∧
       (¬ S p → getPix2 img' p = getPix2 img p)

/-- `Subimg img' img`: `img'` has the same dimensions and agrees with `img`
wherever it is not the separator (i.e. `img'` is `img` with some pixels
repainted to the separator). -/
def Subimg (img' img : Img) : Prop :=
  img'.w = img.w ∧ img'.h = img.h ∧
  ∀ p, getPix2 img' p ≠ SEPARATOR_COLOR → getPix2 img' p = getPix2 img p

/-- Models `BuildState`. -/
inductive BuildState where
  | Complete : List (List Rgb8) → BuildState
  | NewColor : Rgb8 → BuildState
deriving DecidableEq

/-- Models `RowBuilder { img, rows, current_row, x, y }`. -/
structure RowBuilder where
  img : Img
  rows : List (List Rgb8)
  current_row : List Rgb8
  x : Nat
  y : Nat

/-- Models the nested scan loops of `RowBuilder::build`.  The recursion
arguments `(x, y)` play the role of the loop variables; the source stores
`self.x = x; self.y = y` at every visited pixel and resets `self.x = 0` at the
end of every scan line, so the suspension state returned with `NewColor` holds
exactly the suspension pixel, and a resumed run scans the first line from the
stored `x` and all later lines from `0` — which is what restarting this
recursion at the stored `(x, y)` does. -/
def buildLoop (m : ColorMap) (img : Img) (rows : List (List Rgb8))
    (cur : List Rgb8) (x y : Nat) : BuildState × RowBuilder :=
  if y < img.h then
    if x < img.w then
      if getPix img x y = SEPARATOR_COLOR then
        buildLoop m img rows cur (x + 1) y
      else if m.has (getPix img x y) = false then
        (BuildState.NewColor (getPix img x y), ⟨img, rows, cur, x, y⟩)
      else
        buildLoop m (flood_fill img x y) rows (cur ++ [getPix img x y]) (x + 1) y
    else
      buildLoop m img (if cur.isEmpty then rows else rows ++ [cur]) [] 0 (y + 1)
  else
    (BuildState.Complete rows, ⟨img, rows, cur, x, y⟩)
termination_by (img.h - y) * (img.w + 1) + (img.w - x)
decreasing_by
· generalize (img.h - y) * (img.w + 1) = K
  omega
· have hd : ∀ f (i : Img) a b, (floodFillF f i a b).w = i.w ∧ (floodFillF f i a b).h = i.h := by
    intro f
    induction f with
    | zero => intro i a b; exact ⟨rfl, rfl⟩
    | succ n ih =>
      intro i a b
      simp only [floodFillF]
      split
      · exact ⟨rfl, rfl⟩
      · constructor <;>
        · dsimp only
          repeat' split
          all_goals simp only [ih, setPix]
  simp only [flood_fill, hd]
  generalize (img.h - y) * (img.w + 1) = K
  omega
· have h1 : img.h - y = (img.h - (y + 1)) + 1 := by omega
  rw [h1, Nat.succ_mul]
  generalize (img.h - (y + 1)) * (img.w + 1) = K
  omega

/-- Models `RowBuilder::new(img)`. -/
def RowBuilder.new (img : Img) : RowBuilder := ⟨img, [], [], 0, 0⟩

/-- Models `RowBuilder::build(&mut self, color_map)`: scan from the stored
resume cursor; the returned `RowBuilder` is the mutated `self`. -/
def RowBuilder.build (s : RowBuilder) (m : ColorMap) : BuildState × RowBuilder :=
  buildLoop m s.img s.rows s.current_row s.x s.y

/-- Models `RowBuilder::continue_build(entry, color_map)`: registers the label
pair for the color of the remembered resume pixel `(self.x, self.y)`, then
re-invokes `build`.  The updated map is returned as well (the source mutates
it through `&mut`). -/
def RowBuilder.continue_build (s : RowBuilder) (entry : ColorEntry) (m : ColorMap) :
    BuildState × RowBuilder × ColorMap :=
  let m' := m.add_entry (getPix s.img s.x s.y) entry
  let r := s.build m'
  (r.1, r.2, m')

/-- The caller protocol of the segmentation interface: on `NewColor c` the
caller obtains labels for `c` (here from the oracle `naming`) and calls
`continue_build`; `fuel` bounds the number of resumptions. -/
def resumeLoop : Nat → BuildState × RowBuilder → ColorMap → (Rgb8 → ColorEntry) →
    Option (List (List Rgb8) × ColorMap)
  | _, (BuildState.Complete g, _), m, _ => some (g, m)
  | 0, (BuildState.NewColor _, _), _, _ => none
  | fuel + 1, (BuildState.NewColor c, s), m, naming =>
    let r := s.continue_build (naming c) m
    resumeLoop fuel (r.1, r.2.1) r.2.2 naming

/-- A complete interrupted run: one `build` call followed by `continue_build`
resumptions until `Complete`. -/
def runSeg (fuel : Nat) (s : RowBuilder) (m : ColorMap) (naming : Rgb8 → ColorEntry) :
    Option (List (List Rgb8) × ColorMap) :=
  resumeLoop fuel (s.build m) m naming

/-- Rust release-mode `usize` subtraction of 1: wraps to `2^64 - 1` at `0`
(debug builds panic there instead). -/
def usub1 (n : Nat) : Nat := if n = 0 then 2 ^ 64 - 1 else n - 1

/-- Models `Progress { row, col }`. -/
structure Progress where
  row : Nat
  col : Nat
deriving DecidableEq

/-- Models `Progress::new()`: the fixed start cursor `row = 2, col = 1`. -/
def Progress.new : Progress := ⟨2, 1⟩

/-- Models `Progress::reset`. -/
def Progress.reset (_p : Progress) : Progress := ⟨2, 1⟩

/-- Models `NextPreview`. -/
inductive NextPreview where
  | Pixel : Option Rgb8 → NextPreview
  | Tri : Option Rgb8 → Option Rgb8 → Option Rgb8 → NextPreview
deriving DecidableEq

/-- Models `App`. -/
structure App where
  lines : List (List Rgb8)
  rows : List (List Rgb8)
  current_pixel : NextPreview
  next_pixel : NextPreview
  ensure_current_on_screen : Bool
  progress : Progress
deriving DecidableEq

/-- Models `App::initialize_lines` (named `init_lines` here).  The source
indexes `rows[0]`, `rows[1]`, `rows[2]` (respectively `rows[progress.row - 1]`),
which panics when out of range; the panic is modelled by `none`. -/
def init_lines (rows : List (List Rgb8)) (progress : Progress) :
    Option (List (List Rgb8)) :=
  if progress.row < 3 then
    (rows[0]?).bind fun r0 =>
      (rows[1]?).bind fun r1 =>
        (rows[2]?).map fun r2 =>
          [r0.take (progress.col + 1), r1.take progress.col, r2.take (progress.col + 1)]
  else
    (rows[usub1 progress.row]?).map fun rl =>
      rows.take progress.row ++ [rl.take (progress.col + 1)]

/-- The `next_pixel` computation of `App::new` (also the last step of
`App::tick`): `rows[progress.row]` (resp. `rows[0..=2]`) indexing panics
(`none`) when out of range, while the inner `.get(...)` is the total
`Option`-returning lookup. -/
def next_preview (rows : List (List Rgb8)) (progress : Progress) : Option NextPreview :=
  if 3 ≤ progress.row then
    (rows[progress.row]?).map fun r => NextPreview.Pixel r[progress.col]?
  else
    (rows[0]?).bind fun r0 =>
      (rows[1]?).bind fun r1 =>
        (rows[2]?).map fun r2 =>
          NextPreview.Tri r0[progress.col + 1]? r1[progress.col]? r2[progress.col + 1]?

/-- The `current_pixel` computation of `App::new`. -/
def current_preview (rows : List (List Rgb8)) (progress : Progress) : Option NextPreview :=
  if 3 ≤ progress.row then
    (rows[progress.row]?).map fun r => NextPreview.Pixel r[usub1 progress.col]?
  else
    (rows[0]?).bind fun r0 =>
      (rows[1]?).bind fun r1 =>
        (rows[2]?).map fun r2 =>
          NextPreview.Tri r0[progress.col]? r1[usub1 progress.col]? r2[progress.col]?

/-- Models `App::new(rows, progress)`; `none` models the panics of the
out-of-range indexing inside (`lines`, then `next_pixel`, then
`current_pixel`, in source order). -/
def App.new (rows : List (List Rgb8)) (progress : Progress) : Option App :=
  (init_lines rows progress).bind fun lines =>
    (next_preview rows progress).bind fun np =>
      (current_preview rows progress).map fun cp =>
        ⟨lines, rows, cp, np, false, progress⟩

/-- Models `App::is_done_with_line` as a function of the grid and cursor; the
source indexes `rows[0..=2]` / `rows[row]`, so it can panic (`none`). -/
def is_done_with_line? (rows : List (List Rgb8)) (row col : Nat) : Option Bool :=
  if row < 3 then
    (rows[0]?).bind fun r0 =>
      (rows[1]?).bind fun r1 =>
        (rows[2]?).map fun r2 =>
          decide ((r0.length.max r1.length).max r2.length ≤ col)
  else
    (rows[row]?).map fun r => decide (r.length ≤ col)

/-- Models `App::is_done_with_line(&self)`. -/
def App.is_done_with_line (a : App) : Option Bool :=
  is_done_with_line? a.rows a.progress.row a.progress.col

/-- One `self.rows[i].get(self.lines[i].len()).map(|val| self.lines[i].push(*val))`
step of `App::tick` (the `row < 3` branch). -/
def grow_line (rows lines : List (List Rgb8)) (i : Nat) :
    Option (List (List Rgb8)) :=
  (rows[i]?).bind fun r =>
    (lines[i]?).map fun l =>
      match r[l.length]? with
      | some v => lines.set i (l ++ [v])
      | none => lines

/-- Appends `r[line.len()]` to `line` when present: the
`rows[row].get(line.len()).map(|val| line.push(*val))` step of `App::tick`
(the `row >= 3` branch, inside `if let Some(line) = self.lines.last_mut()`). -/
def grow1 (r line : List Rgb8) : List Rgb8 :=
  match r[line.length]? with
  | some v => line ++ [v]
  | none => line

/-- The line-growing block of `App::tick`: in the `row < 3` regime grow the
three interleaved lines from `rows[0..=2]`, otherwise grow the last line from
`rows[row]` (no-op when there is no last line, `if let Some(line) = ...`). -/
def tick_lines (rows lines2 : List (List Rgb8)) (row2 : Nat) :
    Option (List (List Rgb8)) :=
  if row2 < 3 then
    (grow_line rows lines2 0).bind fun la =>
      (grow_line rows la 1).bind fun lb =>
        grow_line rows lb 2
  else
    match lines2.getLast? with
    | none => some lines2
    | some line => (rows[row2]?).map fun r => lines2.dropLast ++ [grow1 r line]

/-- Models `App::tick`: set the flag, bump the column, promote the next
preview, on end-of-line move to the next row and push a fresh line, grow the
revealed lines, and recompute `next_pixel`; `none` models the panics of the
`self.rows[...]` / `self.lines[...]` indexing inside. -/
def App.tick (a : App) : Option App :=
  (is_done_with_line? a.rows a.progress.row (a.progress.col + 1)).bind fun dwl =>
    let row2 := if dwl then a.progress.row + 1 else a.progress.row
    let col2 := if dwl then 0 else a.progress.col + 1
    let lines2 := if dwl then a.lines ++ [[]] else a.lines
    let cur2 := if dwl then
        NextPreview.Pixel ((a.rows[row2]?).bind fun r => r[0]?)
      else a.next_pixel
    (tick_lines a.rows lines2 row2).bind fun lines3 =>
      (next_preview a.rows ⟨row2, col2⟩).map fun np =>
        ⟨lines3, a.rows, cur2, np, true, ⟨row2, col2⟩⟩

/-- Models `App::reset`: `self.progress.reset(); self.lines = App::initialize_lines(...)`
(the grid, the two previews and the flag are untouched). -/
def App.reset (a : App) : Option App :=
  (init_lines a.rows a.progress.reset).map fun lines =>
    { a with progress := a.progress.reset, lines := lines }

/-- Models `App::is_done`:
`row >= rows.len() - 1 && col >= rows.last().map(|r| r.len()).unwrap_or(1) - 1`
with release-mode wrapping `usize` subtraction (`usub1`). -/
def App.is_done (a : App) : Bool :=
  decide (usub1 a.rows.length ≤ a.progress.row) &&
  decide (usub1 (((a.rows.getLast?).map List.length).getD 1) ≤ a.progress.col)

/-! Concrete data used by the witness and counterexample theorems. -/

/-- A red pixel. -/
def cA : Rgb8 := ⟨255, 0, 0⟩

/-- A blue pixel. -/
def cB : Rgb8 := ⟨0, 0, 255⟩

/-- A 2×1 image whose two (differently colored) cells touch with no
separator between them. -/
def imgAB : Img := ⟨2, 1, [cA, cB], rfl⟩

/-- A 1×1 image holding a single red pixel. -/
def imgA1 : Img := ⟨1, 1, [cA], rfl⟩

/-- A registry holding only the red color. -/
def mW : ColorMap := ColorMap.new.add_entry cA ⟨"red", "r"⟩

/-- A naming oracle for resumptions. -/
def namingW : Rgb8 → ColorEntry := fun _ => ⟨"red", "r"⟩

/-- A small pattern grid. -/
def rowsW : List (List Rgb8) := [[cA], [cB], [cA], [cA, cB]]

/-- A walker over `rowsW` positioned at `(row 3, col 0)`. -/
def appW : App :=
  ⟨[[cA], [cB], [cA], [cA]], rowsW, NextPreview.Pixel none,
    NextPreview.Pixel (some cA), false, ⟨3, 0⟩⟩

/-- A walker over the empty grid. -/
def appE : App :=
  ⟨[], [], NextPreview.Pixel none, NextPreview.Pixel none, false, ⟨0, 0⟩⟩

/-- The walker `appW` after one `tick` (used as witness data). -/
def appW2 : App :=
  ⟨[[cA], [cB], [cA], [cA, cB]], rowsW, NextPreview.Pixel (some cA),
    NextPreview.Pixel (some cB), true, ⟨3, 1⟩⟩

/-- The walker `appW` after one `reset` (used as witness data). -/
def appWr : App :=
  ⟨[[cA], [cB], [cA]], rowsW, NextPreview.Pixel none,
    NextPreview.Pixel (some cA), false, ⟨2, 1⟩⟩

/-! # Theorems -/

/-- Lookup on a freshly inserted binding. -/
lemma lookupAL_cons (c' : Rgb8) (s : String) (l : List (Rgb8 × String)) (c : Rgb8) :
    lookupAL ((c', s) :: l) c = if c' = c then some s else lookupAL l c := by
  simp only [lookupAL, List.find?]
  by_cases h : c' = c <;> simp [h]

/-- Registries built by `add_entry` have the same key set in both maps. -/
lemma ReachableCM.keys_eq {m : ColorMap} (hm : ReachableCM m) (c : Rgb8) :
    (lookupAL m.full_names c).isSome = (lookupAL m.short_char c).isSome := by
  induction hm with
  | base => rfl
  | step m' c' e _ ih =>
    simp only [ColorMap.add_entry, lookupAL_cons]
    by_cases h : c' = c <;> simp [h, ih]

/-- C6: for every `ColorRegistry` reachable from `new()` by `add_entry` calls
and every color `c`, `has c` is true iff both a full name and a one-character
abbreviation are recorded for `c` (so `c` is either fully absent or present in
both maps), and `full_name c` / `one_char c` fail (return `none`, modelling
the panicking `HashMap` index) exactly when `c` is unregistered, returning the
recorded labels otherwise. -/
theorem c6_registry_lookup (m : ColorMap) (hm : ReachableCM m) (c : Rgb8) :
    (m.has c = true ↔
      (∃ s, lookupAL m.full_names c = some s) ∧ (∃ t, lookupAL m.short_char c = some t))
    ∧ (m.full_name c = none ↔ m.has c = false)
    ∧ (m.one_char c = none ↔ m.has c = false)
    ∧ (m.has c = true → ∃ s t, m.full_name c = some s ∧ m.one_char c = some t) := by
  have hk := hm.keys_eq c
  cases hfull : lookupAL m.full_names c with
  | none =>
    have hs : lookupAL m.short_char c = none := by
      rw [hfull] at hk
      cases hq : lookupAL m.short_char c with
      | none => rfl
      | some t => rw [hq] at hk; simp at hk
    simp [ColorMap.has, ColorMap.full_name, ColorMap.one_char, hfull, hs]
  | some s =>
    have hs : ∃ t, lookupAL m.short_char c = some t := by
      rw [hfull] at hk
      cases hq : lookupAL m.short_char c with
      | none => rw [hq] at hk; simp at hk
      | some t => exact ⟨t, rfl⟩
    obtain ⟨t, ht⟩ := hs
    simp [ColorMap.has, ColorMap.full_name, ColorMap.one_char, hfull, ht]

/-- Witness for C6 at a concrete registry and color. -/
theorem c6_registry_lookup_witness :
    (mW.has cA = true ↔
      (∃ s, lookupAL mW.full_names cA = some s) ∧ (∃ t, lookupAL mW.short_char cA = some t))
    ∧ (mW.full_name cA = none ↔ mW.has cA = false)
    ∧ (mW.one_char cA = none ↔ mW.has cA = false)
    ∧ (mW.has cA = true → ∃ s t, mW.full_name cA = some s ∧ mW.one_char cA = some t) :=
  c6_registry_lookup mW (ReachableCM.step _ _ _ ReachableCM.base) cA

/-- Inversion of a successful `App::reset`. -/
lemma reset_inv {a a' : App} (h : App.reset a = some a') :
    ∃ L, init_lines a.rows ⟨2, 1⟩ = some L
      ∧ a' = { a with progress := ⟨2, 1⟩, lines := L } := by
  unfold App.reset Progress.reset at h
  simp only [Option.map_eq_some', Option.some.injEq] at h
  obtain ⟨L, hL, h⟩ := h
  subst h
  exact ⟨L, hL, rfl⟩

/-- Inversion of a successful `App::tick`: the flag is set, the grid survives,
and the cursor moves to `(row + 1, 0)` on an end-of-line and to
`(row, col + 1)` otherwise. -/
lemma tick_inv {a a' : App} (h : App.tick a = some a') :
    ∃ dwl, is_done_with_line? a.rows a.progress.row (a.progress.col + 1) = some dwl
      ∧ a'.rows = a.rows
      ∧ a'.ensure_current_on_screen = true
      ∧ a'.progress = (if dwl then (⟨a.progress.row + 1, 0⟩ : Progress)
          else ⟨a.progress.row, a.progress.col + 1⟩) := by
  unfold App.tick at h
  simp only [Option.bind_eq_some, Option.map_eq_some'] at h
  obtain ⟨dwl, hd, l3, hl3, np, hnp, h⟩ := h
  subst h
  exact ⟨dwl, hd, rfl, rfl, by cases dwl <;> rfl⟩

/-- C4 counterexample: on a walker over the empty grid at cursor `(0, 0)` the
claim's saturating boundary formula holds (so the claim asserts `is_done()` is
true there), but `is_done` — whose `rows.len() - 1` wraps around in release
builds (and panics in debug builds) — returns `false`. -/
theorem c4_is_done_counterexample :
    (appE.rows.length - 1 ≤ appE.progress.row
      ∧ ((appE.rows.getLast?.map List.length).getD 1) - 1 ≤ appE.progress.col)
    ∧ App.is_done appE = false := by
  constructor
  · constructor <;> decide
  · decide

/-- C4 (amended): for every walker whose grid is nonempty and whose last row
is nonempty, `is_done()` returns true iff `cursor.row >= grid.len() - 1` and
`cursor.col >= (length of the last grid row) - 1`; under these hypotheses the
subtractions do not underflow, so saturating and wrapping semantics agree.
(For an empty grid the `rows.len() - 1` subtraction underflows instead of
saturating: debug builds panic and release builds wrap, making `is_done`
false rather than true.) -/
theorem c4_is_done_amended (a : App) (h1 : a.rows ≠ [])
    (h2 : a.rows.getLast? ≠ some []) :
    (App.is_done a = true ↔
      (a.rows.length - 1 ≤ a.progress.row
        ∧ ((a.rows.getLast?.map List.length).getD 1) - 1 ≤ a.progress.col)) := by
  obtain ⟨lr, hlr⟩ := Option.isSome_iff_exists.mp (List.getLast?_isSome.mpr h1)
  have hlen : 0 < a.rows.length := List.length_pos.mpr h1
  have hlr1 : 0 < lr.length := by
    rcases lr with _ | _
    · exact absurd hlr h2
    · simp
  unfold App.is_done usub1
  rw [hlr]
  simp only [Option.map_some', Option.getD_some]
  rw [if_neg (by omega), if_neg (by omega)]
  simp [Bool.and_eq_true, decide_eq_true_eq]

/-- Witness for the amended C4 at a concrete walker. -/
theorem c4_is_done_amended_witness :
    App.is_done appW = true ↔
      (appW.rows.length - 1 ≤ appW.progress.row
        ∧ ((appW.rows.getLast?.map List.length).getD 1) - 1 ≤ appW.progress.col) :=
  c4_is_done_amended appW (by decide) (by decide)

/-- C5: in the `cursor.row >= 3` regime with `cursor.row` in range,
construction succeeds and yields `current_pixel = Pixel(grid[row][col-1])`,
`next_pixel = Pixel(grid[row][col])` (each `None` when out of range; in
particular at `col = 0` construction succeeds and `current_pixel` is
`Pixel(None)` since the wrapped index `col - 1` is out of range for any
`usize`-sized row).  Likewise in the `cursor.row < 3` triple regime every
slot is the corresponding `rows[i].get(...)` lookup, `None` when out of
range, including the middle slot at `col = 0`. -/
theorem c5_new_previews (rows : List (List Rgb8)) (p : Progress) :
    (3 ≤ p.row → p.row < rows.length →
      ∃ a, App.new rows p = some a
        ∧ a.current_pixel = NextPreview.Pixel (rows[p.row]?.getD [])[usub1 p.col]?
        ∧ a.next_pixel = NextPreview.Pixel (rows[p.row]?.getD [])[p.col]?
        ∧ (p.col = 0 → (rows[p.row]?.getD []).length < 2 ^ 64 →
            a.current_pixel = NextPreview.Pixel none))
    ∧ (p.row < 3 → 3 ≤ rows.length →
      ∃ a, App.new rows p = some a
        ∧ a.current_pixel = NextPreview.Tri (rows[0]?.getD [])[p.col]?
            (rows[1]?.getD [])[usub1 p.col]? (rows[2]?.getD [])[p.col]?
        ∧ a.next_pixel = NextPreview.Tri (rows[0]?.getD [])[p.col + 1]?
            (rows[1]?.getD [])[p.col]? (rows[2]?.getD [])[p.col + 1]?
        ∧ (p.col = 0 → (rows[1]?.getD []).length < 2 ^ 64 →
            ∃ o1 o3, a.current_pixel = NextPreview.Tri o1 none o3)) := by
  have hpow : (2 : Nat) ^ 64 = 18446744073709551616 := by norm_num
  constructor
  · intro h3 hlt
    obtain ⟨r, hr⟩ : ∃ r, rows[p.row]? = some r := by
      cases hq : rows[p.row]? with
      | none => rw [List.getElem?_eq_none_iff] at hq; omega
      | some r => exact ⟨r, rfl⟩
    have hu : usub1 p.row = p.row - 1 := by
      unfold usub1; rw [if_neg (by omega)]
    obtain ⟨rl, hrl⟩ : ∃ rl, rows[usub1 p.row]? = some rl := by
      rw [hu]
      cases hq : rows[p.row - 1]? with
      | none => rw [List.getElem?_eq_none_iff] at hq; omega
      | some r => exact ⟨r, rfl⟩
    refine ⟨⟨rows.take p.row ++ [rl.take (p.col + 1)], rows,
        NextPreview.Pixel (rows[p.row]?.getD [])[usub1 p.col]?,
        NextPreview.Pixel (rows[p.row]?.getD [])[p.col]?, false, p⟩, ?_, rfl, rfl, ?_⟩
    · unfold App.new init_lines next_preview current_preview
      rw [if_neg (by omega), if_pos h3, if_pos h3, hrl]
      simp [hr]
    · intro hc0 hbig
      have hz : usub1 p.col = 2 ^ 64 - 1 := by rw [hc0]; rfl
      have hnone : (rows[p.row]?.getD [])[usub1 p.col]? = none := by
        rw [hz, List.getElem?_eq_none_iff]
        omega
      rw [hnone]
  · intro h3 hlen
    obtain ⟨r0, h0⟩ : ∃ r, rows[0]? = some r := by
      cases hq : rows[0]? with
      | none => rw [List.getElem?_eq_none_iff] at hq; omega
      | some r => exact ⟨r, rfl⟩
    obtain ⟨r1, h1⟩ : ∃ r, rows[1]? = some r := by
      cases hq : rows[1]? with
      | none => rw [List.getElem?_eq_none_iff] at hq; omega
      | some r => exact ⟨r, rfl⟩
    obtain ⟨r2, h2⟩ : ∃ r, rows[2]? = some r := by
      cases hq : rows[2]? with
      | none => rw [List.getElem?_eq_none_iff] at hq; omega
      | some r => exact ⟨r, rfl⟩
    refine ⟨⟨[(rows[0]?.getD []).take (p.col + 1), (rows[1]?.getD []).take p.col,
        (rows[2]?.getD []).take (p.col + 1)], rows,
        NextPreview.Tri (rows[0]?.getD [])[p.col]?
          (rows[1]?.getD [])[usub1 p.col]? (rows[2]?.getD [])[p.col]?,
        NextPreview.Tri (rows[0]?.getD [])[p.col + 1]?
          (rows[1]?.getD [])[p.col]? (rows[2]?.getD [])[p.col + 1]?,
        false, p⟩, ?_, rfl, rfl, ?_⟩
    · unfold App.new init_lines next_preview current_preview
      rw [if_pos h3, if_neg (by omega), if_neg (by omega)]
      simp [h0, h1, h2]
    · intro hc0 hbig
      refine ⟨(rows[0]?.getD [])[p.col]?, (rows[2]?.getD [])[p.col]?, ?_⟩
      have hz : usub1 p.col = 2 ^ 64 - 1 := by rw [hc0]; rfl
      have hnone : (rows[1]?.getD [])[usub1 p.col]? = none := by
        rw [hz, List.getElem?_eq_none_iff]
        omega
      rw [hnone]

/-- Witness for C5, both regimes, at concrete grids and cursors. -/
theorem c5_new_previews_witness :
    (∃ a, App.new rowsW ⟨3, 0⟩ = some a
      ∧ a.current_pixel = NextPreview.Pixel (rowsW[3]?.getD [])[usub1 0]?
      ∧ a.next_pixel = NextPreview.Pixel (rowsW[3]?.getD [])[0]?
      ∧ (0 = 0 → (rowsW[3]?.getD []).length < 2 ^ 64 →
          a.current_pixel = NextPreview.Pixel none))
    ∧ (∃ a, App.new rowsW ⟨2, 0⟩ = some a
      ∧ a.current_pixel = NextPreview.Tri (rowsW[0]?.getD [])[0]?
          (rowsW[1]?.getD [])[usub1 0]? (rowsW[2]?.getD [])[0]?
      ∧ a.next_pixel = NextPreview.Tri (rowsW[0]?.getD [])[0 + 1]?
          (rowsW[1]?.getD [])[0]? (rowsW[2]?.getD [])[0 + 1]?
      ∧ (0 = 0 → (rowsW[1]?.getD []).length < 2 ^ 64 →
          ∃ o1 o3, a.current_pixel = NextPreview.Tri o1 none o3)) :=
  ⟨(c5_new_previews rowsW ⟨3, 0⟩).1 (by norm_num) (by decide),
   (c5_new_previews rowsW ⟨2, 0⟩).2 (by norm_num) (by decide)⟩

/-- C7: whenever `advance` (`tick`) returns on a state where `is_done()` is
false, the cursor strictly increases lexicographically: either the row is
unchanged and the column grows by one, or the row grows. -/
theorem c7_cursor_monotone (a a' : App) (h1 : App.is_done a = false)
    (h2 : App.tick a = some a') :
    a.progress.row < a'.progress.row
      ∨ (a.progress.row = a'.progress.row ∧ a.progress.col < a'.progress.col) := by
  obtain ⟨dwl, _, _, _, hp⟩ := tick_inv h2
  cases dwl
  · simp only [Bool.false_eq_true, if_neg] at hp
    right
    rw [hp]
    exact ⟨rfl, Nat.lt_succ_self _⟩
  · simp only [if_pos] at hp
    left
    rw [hp]
    exact Nat.lt_succ_self _

/-- Witness for C7 at a concrete walker and tick. -/
theorem c7_cursor_monotone_witness :
    App.is_done appW = false ∧ App.tick appW = some appW2
      ∧ (appW.progress.row < appW2.progress.row
        ∨ (appW.progress.row = appW2.progress.row
            ∧ appW.progress.col < appW2.progress.col)) :=
  ⟨by decide, by decide, c7_cursor_monotone appW appW2 (by decide) (by decide)⟩

/-- C8: a successful `reset` restores the cursor to the fixed start position
`(2, 1)`, rebuilds `lines` by the construction rule of `App::new`, leaves the
grid unchanged, and — once the previews are reconstructed from the start
cursor by the construction rule — agrees with a freshly constructed walker
over the same grid at that cursor. -/
theorem c8_reset_fresh (a a' : App) (h : App.reset a = some a') :
    a'.progress = ⟨2, 1⟩ ∧ a'.rows = a.rows
      ∧ ∃ fresh, App.new a.rows ⟨2, 1⟩ = some fresh
          ∧ a'.lines = fresh.lines ∧ a'.progress = fresh.progress
          ∧ current_preview a'.rows a'.progress = some fresh.current_pixel
          ∧ next_preview a'.rows a'.progress = some fresh.next_pixel := by
  obtain ⟨L, hL, h⟩ := reset_inv h
  subst h
  unfold init_lines at hL
  rw [if_pos (by norm_num)] at hL
  simp only [Option.bind_eq_some, Option.map_eq_some'] at hL
  obtain ⟨r0, h0, r1, h1, r2, h2, hL⟩ := hL
  refine ⟨rfl, rfl, ⟨L, a.rows,
      NextPreview.Tri r0[1]? r1[usub1 1]? r2[1]?,
      NextPreview.Tri r0[2]? r1[1]? r2[2]?, false, ⟨2, 1⟩⟩, ?_, rfl, rfl, ?_, ?_⟩
  · unfold App.new init_lines next_preview current_preview
    rw [if_pos (by norm_num)]
    rw [if_neg (by norm_num), if_neg (by norm_num)]
    simp [h0, h1, h2, hL]
  · unfold current_preview
    rw [if_neg (by norm_num)]
    simp [h0, h1, h2]
  · unfold next_preview
    rw [if_neg (by norm_num)]
    simp [h0, h1, h2]

/-- Witness for C8 at a concrete walker. -/
theorem c8_reset_fresh_witness :
    appWr.progress = ⟨2, 1⟩ ∧ appWr.rows = appW.rows
      ∧ ∃ fresh, App.new appW.rows ⟨2, 1⟩ = some fresh
          ∧ appWr.lines = fresh.lines ∧ appWr.progress = fresh.progress
          ∧ current_preview appWr.rows appWr.progress = some fresh.current_pixel
          ∧ next_preview appWr.rows appWr.progress = some fresh.next_pixel :=
  c8_reset_fresh appW appWr (by decide)

/-- C9: constructing a `PatternWalker` over a grid with fewer than 3 rows
fails (out-of-bounds row indexing, modelled by `none`) whenever the cursor is
in the early-rows regime `cursor.row < 3` — in particular at the default
start cursor `(2, 1)`. -/
theorem c9_new_fails_small_grid (rows : List (List Rgb8)) (p : Progress)
    (h1 : rows.length < 3) (h2 : p.row < 3) :
    App.new rows p = none := by
  have h3 : rows[2]? = none := by
    rw [List.getElem?_eq_none_iff]
    omega
  unfold App.new init_lines
  rw [if_pos h2, h3]
  cases h0 : rows[0]? <;> cases h1' : rows[1]? <;> simp

/-- Witness for C9: the empty grid with the default start cursor. -/
theorem c9_new_fails_small_grid_witness :
    App.new ([] : List (List Rgb8)) ⟨2, 1⟩ = none :=
  c9_new_fails_small_grid [] ⟨2, 1⟩ (by decide) (by decide)

/-- C10: neither `tick` nor `reset` modifies the stored grid rows; `tick`
mutates only the cursor, lines, previews and flag, and `reset` additionally
leaves the previews and the flag unchanged (`is_done` is a pure function in
this embedding, so it mutates nothing by construction). -/
theorem c10_frame (a : App) :
    (∀ a', App.tick a = some a' → a'.rows = a.rows)
    ∧ (∀ a', App.reset a = some a' →
        a'.rows = a.rows ∧ a'.current_pixel = a.current_pixel
          ∧ a'.next_pixel = a.next_pixel
          ∧ a'.ensure_current_on_screen = a.ensure_current_on_screen) := by
  constructor
  · intro a' h
    obtain ⟨_, _, hr, _⟩ := tick_inv h
    exact hr
  · intro a' h
    obtain ⟨L, _, h⟩ := reset_inv h
    subst h
    exact ⟨rfl, rfl, rfl, rfl⟩

/-- Witness for C10 at a concrete walker, tick and reset. -/
theorem c10_frame_witness :
    appW2.rows = appW.rows
      ∧ (appWr.rows = appW.rows ∧ appWr.current_pixel = appW.current_pixel
          ∧ appWr.next_pixel = appW.next_pixel
          ∧ appWr.ensure_current_on_screen = appW.ensure_current_on_screen) :=
  ⟨(c10_frame appW).1 appW2 (by decide), (c10_frame appW).2 appWr (by decide)⟩

lemma getPix_ne_sep_inB {img : Img} {x y : Nat} (h : getPix img x y ≠ SEPARATOR_COLOR) :
    x < img.w ∧ y < img.h := by
  unfold getPix at h
  by_cases hx : x < img.w
  · refine ⟨hx, ?_⟩
    by_contra hy
    rw [if_pos hx] at h
    have : img.data[y * img.w + x]? = none := by
      rw [List.getElem?_eq_none_iff, img.hlen]
      have : img.w * img.h ≤ y * img.w := by
        calc img.w * img.h ≤ img.w * y := Nat.mul_le_mul_left _ (by omega)
        _ = y * img.w := Nat.mul_comm _ _
      omega
    rw [this] at h
    simp at h
  · rw [if_neg hx] at h
    simp at h

lemma getPix_oob {img : Img} {x y : Nat} (h : ¬ (x < img.w ∧ y < img.h)) :
    getPix img x y = SEPARATOR_COLOR := by
  by_contra hne
  exact h (getPix_ne_sep_inB hne)

lemma idx_inj {w x x' y y' : Nat} (hx : x < w) (hx' : x' < w)
    (h : y * w + x = y' * w + x') : x = x' ∧ y = y' := by
  have h1 : (w * y + x) = (w * y' + x') := by
    rw [Nat.mul_comm w y, Nat.mul_comm w y']; omega
  have hw : 0 < w := by omega
  have hm : x = x' := by
    have := congrArg (fun t => t % w) h1
    simpa [Nat.mul_add_mod, Nat.mod_eq_of_lt hx, Nat.mod_eq_of_lt hx'] using this
  have hd : y = y' := by
    have := congrArg (fun t => t / w) h1
    simpa [Nat.mul_add_div hw, Nat.div_eq_of_lt hx, Nat.div_eq_of_lt hx'] using this
  exact ⟨hm, hd⟩

lemma setPix_w (img : Img) (x y : Nat) (c : Rgb8) : (setPix img x y c).w = img.w := rfl

lemma setPix_h (img : Img) (x y : Nat) (c : Rgb8) : (setPix img x y c).h = img.h := rfl

lemma getPix_setPix_self {img : Img} {x y : Nat} (hx : x < img.w) (hy : y < img.h)
    (c : Rgb8) : getPix (setPix img x y c) x y = c := by
  unfold getPix setPix
  rw [if_pos hx]
  have hlt : y * img.w + x < img.data.length := by
    rw [img.hlen]
    calc y * img.w + x < y * img.w + img.w := by omega
    _ = (y + 1) * img.w := by ring
    _ ≤ img.h * img.w := Nat.mul_le_mul_right _ (by omega)
    _ = img.w * img.h := Nat.mul_comm _ _
  simp [List.getElem?_set_self hlt]

lemma getPix_setPix_ne {img : Img} {x y x' y' : Nat} (hx : x < img.w) (hy : y < img.h)
    (c : Rgb8) (hne : ¬ (x' = x ∧ y' = y)) :
    getPix (setPix img x y c) x' y' = getPix img x' y' := by
  unfold getPix setPix
  by_cases hx' : x' < img.w
  · rw [if_pos hx', if_pos hx']
    have : y * img.w + x ≠ y' * img.w + x' := by
      intro he
      obtain ⟨h1, h2⟩ := idx_inj hx hx' he
      exact hne ⟨h1.symm, h2.symm⟩
    simp [List.getElem?_set_ne this]
  · rw [if_neg hx', if_neg hx']

lemma floodFillF_w (f : Nat) (img : Img) (x y : Nat) : (floodFillF f img x y).w = img.w := by
  induction f generalizing img x y with
  | zero => rfl
  | succ n ih =>
    simp only [floodFillF]
    split
    · rfl
    · repeat' split
      all_goals simp only [ih, setPix_w]

lemma floodFillF_h (f : Nat) (img : Img) (x y : Nat) : (floodFillF f img x y).h = img.h := by
  induction f generalizing img x y with
  | zero => rfl
  | succ n ih =>
    simp only [floodFillF]
    split
    · rfl
    · repeat' split
      all_goals simp only [ih, setPix_h]

lemma subimg_refl (img : Img) : Subimg img img := ⟨rfl, rfl, fun _ _ => rfl⟩

lemma subimg_trans {i1 i2 i3 : Img} (h1 : Subimg i1 i2) (h2 : Subimg i2 i3) :
    Subimg i1 i3 := by
  obtain ⟨hw1, hh1, hp1⟩ := h1
  obtain ⟨hw2, hh2, hp2⟩ := h2
  refine ⟨hw1.trans hw2, hh1.trans hh2, fun p hne => ?_⟩
  rw [hp1 p hne]
  exact hp2 p (by rw [← hp1 p hne]; exact hne)

lemma subimg_setPix {img : Img} {x y : Nat} (hx : x < img.w) (hy : y < img.h) :
    Subimg (setPix img x y SEPARATOR_COLOR) img := by
  refine ⟨rfl, rfl, fun p hne => ?_⟩
  by_cases hp : p.1 = x ∧ p.2 = y
  · exfalso
    apply hne
    show getPix _ p.1 p.2 = _
    rw [hp.1, hp.2]
    exact getPix_setPix_self hx hy _
  · exact getPix_setPix_ne hx hy _ hp

lemma floodFillF_subimg (f : Nat) (img : Img) (x y : Nat) :
    Subimg (floodFillF f img x y) img := by
  induction f generalizing img x y with
  | zero => exact subimg_refl img
  | succ n ih =>
    simp only [floodFillF]
    split
    · exact subimg_refl img
    · rename_i hne
      obtain ⟨hx, hy⟩ := getPix_ne_sep_inB hne
      have h1 : Subimg (setPix img x y SEPARATOR_COLOR) img := subimg_setPix hx hy
      repeat' split
      all_goals
        solve
        | exact subimg_trans (ih _ _ _) (subimg_trans (ih _ _ _)
            (subimg_trans (ih _ _ _) (subimg_trans (ih _ _ _) h1)))
        | exact subimg_trans (ih _ _ _) (subimg_trans (ih _ _ _)
            (subimg_trans (ih _ _ _) h1))
        | exact subimg_trans (ih _ _ _) (subimg_trans (ih _ _ _) h1)
        | exact subimg_trans (ih _ _ _) h1
        | exact h1

lemma idx_lt {img : Img} {x y : Nat} (hx : x < img.w) (hy : y < img.h) :
    y * img.w + x < img.data.length := by
  rw [img.hlen]
  calc y * img.w + x < y * img.w + img.w := by omega
  _ = (y + 1) * img.w := by ring
  _ ≤ img.h * img.w := Nat.mul_le_mul_right _ (by omega)
  _ = img.w * img.h := Nat.mul_comm _ _

lemma countP_set_succ {α : Type} {l : List α} {i : Nat} {a : α} {p : α → Bool}
    (ha : p a = false) (hi : ∃ v, l[i]? = some v ∧ p v = true) :
    (l.set i a).countP p + 1 = l.countP p := by
  induction l generalizing i with
  | nil => obtain ⟨v, hv, _⟩ := hi; simp at hv
  | cons hd tl ih =>
    cases i with
    | zero =>
      obtain ⟨v, hv, hpv⟩ := hi
      simp only [List.getElem?_cons_zero, Option.some.injEq] at hv
      subst hv
      simp [List.countP_cons, ha, hpv]
    | succ n =>
      obtain ⟨v, hv, hpv⟩ := hi
      rw [List.set_cons_succ]
      simp only [List.countP_cons]
      have := ih ⟨v, by simpa using hv, hpv⟩
      omega

lemma nonSep_setPix {img : Img} {x y : Nat} (hx : x < img.w) (hy : y < img.h)
    (hne : getPix img x y ≠ SEPARATOR_COLOR) :
    nonSep (setPix img x y SEPARATOR_COLOR) + 1 = nonSep img := by
  unfold nonSep setPix
  apply countP_set_succ (by simp)
  unfold getPix at hne
  rw [if_pos hx] at hne
  cases hv : img.data[y * img.w + x]? with
  | none => rw [hv] at hne; simp at hne
  | some v =>
    refine ⟨v, rfl, ?_⟩
    rw [hv] at hne
    simp only [Option.getD_some] at hne
    simpa using hne

lemma nonSep_zero {img : Img} (h : nonSep img = 0) (x y : Nat) :
    getPix img x y = SEPARATOR_COLOR := by
  unfold nonSep at h
  rw [List.countP_eq_zero] at h
  unfold getPix
  split
  · cases hv : img.data[y * img.w + x]? with
    | none => rfl
    | some v =>
      have := h v (List.getElem?_mem hv)
      simpa using this
  · rfl

lemma nonSep_floodFillF_le (f : Nat) (img : Img) (x y : Nat) :
    nonSep (floodFillF f img x y) ≤ nonSep img := by
  induction f generalizing img x y with
  | zero => exact le_refl _
  | succ n ih =>
    simp only [floodFillF]
    split
    · exact le_refl _
    · rename_i hne
      obtain ⟨hx, hy⟩ := getPix_ne_sep_inB hne
      have h1 : nonSep (setPix img x y SEPARATOR_COLOR) + 1 = nonSep img :=
        nonSep_setPix hx hy hne
      repeat' split
      all_goals
        first
        | exact le_trans (ih _ _ _) (le_trans (ih _ _ _)
            (le_trans (ih _ _ _) (le_trans (ih _ _ _) (by omega))))
        | exact le_trans (ih _ _ _) (le_trans (ih _ _ _)
            (le_trans (ih _ _ _) (by omega)))
        | exact le_trans (ih _ _ _) (le_trans (ih _ _ _) (by omega))
        | exact le_trans (ih _ _ _) (by omega)
        | omega

lemma floodFillF_succ_eq (f : Nat) (i : Img) (a b : Nat) :
    floodFillF (f + 1) i a b =
      if getPix i a b = SEPARATOR_COLOR then i
      else
        (let j1 := setPix i a b SEPARATOR_COLOR
         let j2 := if 0 < a then floodFillF f j1 (a - 1) b else j1
         let j3 := if 0 < b then floodFillF f j2 a (b - 1) else j2
         let j4 := if a + 1 < i.w then floodFillF f j3 (a + 1) b else j3
         if b + 1 < i.h then floodFillF f j4 a (b + 1) else j4) := rfl

lemma floodFillF_fuel_stable : ∀ f img x y, nonSep img ≤ f →
    floodFillF (f + 1) img x y = floodFillF f img x y := by
  intro f
  induction f using Nat.strong_induction_on with
  | _ f ih =>
    intro img x y hf
    cases f with
    | zero =>
      have h0 : nonSep img = 0 := by omega
      simp only [floodFillF]
      rw [if_pos (nonSep_zero h0 x y)]
    | succ g =>
      rw [floodFillF_succ_eq (g + 1), floodFillF_succ_eq g]
      by_cases hsep : getPix img x y = SEPARATOR_COLOR
      · rw [if_pos hsep, if_pos hsep]
      · rw [if_neg hsep, if_neg hsep]
        obtain ⟨hx, hy⟩ := getPix_ne_sep_inB hsep
        have h1 : nonSep (setPix img x y SEPARATOR_COLOR) + 1 = nonSep img :=
          nonSep_setPix hx hy hsep
        dsimp only
        have e : ∀ i a b, nonSep i ≤ g → floodFillF (g + 1) i a b = floodFillF g i a b :=
          fun i a b h => ih g (by omega) i a b h
        set i1 := setPix img x y SEPARATOR_COLOR with hi1
        have hn1 : nonSep i1 ≤ g := by omega
        have s2 : (if 0 < x then floodFillF (g + 1) i1 (x - 1) y else i1)
            = (if 0 < x then floodFillF g i1 (x - 1) y else i1) := by
          split
          · exact e _ _ _ hn1
          · rfl
        rw [s2]
        set i2 := if 0 < x then floodFillF g i1 (x - 1) y else i1 with hi2
        have hn2 : nonSep i2 ≤ g := by
          rw [hi2]
          split
          · exact le_trans (nonSep_floodFillF_le _ _ _ _) hn1
          · exact hn1
        have s3 : (if 0 < y then floodFillF (g + 1) i2 x (y - 1) else i2)
            = (if 0 < y then floodFillF g i2 x (y - 1) else i2) := by
          split
          · exact e _ _ _ hn2
          · rfl
        rw [s3]
        set i3 := if 0 < y then floodFillF g i2 x (y - 1) else i2 with hi3
        have hn3 : nonSep i3 ≤ g := by
          rw [hi3]
          split
          · exact le_trans (nonSep_floodFillF_le _ _ _ _) hn2
          · exact hn2
        have s4 : (if x + 1 < img.w then floodFillF (g + 1) i3 (x + 1) y else i3)
            = (if x + 1 < img.w then floodFillF g i3 (x + 1) y else i3) := by
          split
          · exact e _ _ _ hn3
          · rfl
        rw [s4]
        set i4 := if x + 1 < img.w then floodFillF g i3 (x + 1) y else i3 with hi4
        have hn4 : nonSep i4 ≤ g := by
          rw [hi4]
          split
          · exact le_trans (nonSep_floodFillF_le _ _ _ _) hn3
          · exact hn3
        split
        · exact e _ _ _ hn4
        · rfl

lemma adj_symm {p q : Nat × Nat} (h : adj p q) : adj q p := by
  unfold adj at *
  omega

lemma inB_of_dims {img img' : Img} (hw : img'.w = img.w) (hh : img'.h = img.h)
    {p : Nat × Nat} (h : inB img p) : inB img' p :=
  ⟨by rw [hw]; exact h.1, by rw [hh]; exact h.2⟩

lemma Reach.src {img : Img} {s p : Nat × Nat} (h : Reach img s p) :
    inB img s ∧ getPix2 img s ≠ SEPARATOR_COLOR := by
  induction h with
  | refl h1 h2 => exact ⟨h1, h2⟩
  | step _ _ _ _ ih => exact ih

lemma Reach.dst {img : Img} {s p : Nat × Nat} (h : Reach img s p) :
    inB img p ∧ getPix2 img p ≠ SEPARATOR_COLOR := by
  cases h with
  | refl h1 h2 => exact ⟨h1, h2⟩
  | step _ _ h3 h4 => exact ⟨h3, h4⟩

lemma Reach.trans {img : Img} {s q t : Nat × Nat} (h1 : Reach img s q)
    (h2 : Reach img q t) : Reach img s t := by
  induction h2 with
  | refl _ _ => exact h1
  | step _ ha hb hc ih => exact Reach.step ih ha hb hc

lemma Reach.symm {img : Img} {s p : Nat × Nat} (h : Reach img s p) : Reach img p s := by
  induction h with
  | refl h1 h2 => exact Reach.refl h1 h2
  | @step q r hq ha hb hc ih =>
    exact (Reach.step (Reach.refl hb hc) (adj_symm ha) hq.dst.1 hq.dst.2).trans ih

lemma reach_mono {img img' : Img} (hs : Subimg img' img) {s p : Nat × Nat}
    (h : Reach img' s p) : Reach img s p := by
  obtain ⟨hw, hh, hpt⟩ := hs
  induction h with
  | refl h1 h2 =>
    refine Reach.refl (inB_of_dims hw.symm hh.symm h1) ?_
    rw [← hpt _ h2]
    exact h2
  | step hq ha hb hc ih =>
    exact Reach.step ih ha (inB_of_dims hw.symm hh.symm hb) (by rw [← hpt _ hc]; exact hc)

lemma reach_drop_start {img : Img} {s p : Nat × Nat} (h : Reach img s p) :
    p ≠ s → ∃ n, adj s n ∧ Reach (setPix img s.1 s.2 SEPARATOR_COLOR) n p := by
  induction h with
  | refl _ _ => intro hne; exact absurd rfl hne
  | @step q r hq ha hb hc ih =>
    intro hne
    have hsx : s.1 < img.w := hq.src.1.1
    have hsy : s.2 < img.h := hq.src.1.2
    have hrne : getPix2 (setPix img s.1 s.2 SEPARATOR_COLOR) r ≠ SEPARATOR_COLOR := by
      show getPix _ r.1 r.2 ≠ _
      rw [getPix_setPix_ne hsx hsy _ (fun hcon => hne (Prod.ext hcon.1 hcon.2))]
      exact hc
    by_cases hqs : q = s
    · subst hqs
      exact ⟨r, ha, Reach.refl hb hrne⟩
    · obtain ⟨n, hn1, hn2⟩ := ih hqs
      exact ⟨n, hn1, Reach.step hn2 ha hb hrne⟩

lemma paints_comp {img i2 i3 : Img} {S1 S2 : Nat × Nat → Prop}
    (h1 : Paints img i2 S1) (h2 : Paints i2 i3 S2) :
    Paints img i3 (fun p => S1 p ∨ S2 p) := by
  obtain ⟨hw1, hh1, hp1⟩ := h1
  obtain ⟨hw2, hh2, hp2⟩ := h2
  refine ⟨hw2.trans hw1, hh2.trans hh1, fun p => ⟨?_, ?_⟩⟩
  · rintro (hs | hs)
    · by_cases h2s : S2 p
      · exact (hp2 p).1 h2s
      · rw [(hp2 p).2 h2s]
        exact (hp1 p).1 hs
    · exact (hp2 p).1 hs
  · intro hns
    rw [not_or] at hns
    rw [(hp2 p).2 hns.2, (hp1 p).2 hns.1]

lemma paints_id (img : Img) : Paints img img (fun _ => False) :=
  ⟨rfl, rfl, fun _ => ⟨False.elim, fun _ => rfl⟩⟩

lemma paints_congr {img img' : Img} {S T : Nat × Nat → Prop}
    (hST : ∀ p, S p ↔ T p) (h : Paints img img' S) : Paints img img' T := by
  obtain ⟨hw, hh, hp⟩ := h
  exact ⟨hw, hh, fun p =>
    ⟨fun ht => (hp p).1 ((hST p).mpr ht),
     fun hnt => (hp p).2 (fun hs => hnt ((hST p).mp hs))⟩⟩

lemma paints_subimg {img img' : Img} {S : Nat × Nat → Prop}
    (h : Paints img img' S) : Subimg img' img := by
  obtain ⟨hw, hh, hp⟩ := h
  refine ⟨hw, hh, fun p hne => ?_⟩
  by_cases hs : S p
  · exact absurd ((hp p).1 hs) hne
  · exact (hp p).2 hs

lemma paints_setPix {img : Img} {x y : Nat} (hx : x < img.w) (hy : y < img.h) :
    Paints img (setPix img x y SEPARATOR_COLOR) (fun p => p = (x, y)) := by
  refine ⟨rfl, rfl, fun p => ⟨?_, ?_⟩⟩
  · rintro rfl
    exact getPix_setPix_self hx hy _
  · intro hne
    show getPix _ p.1 p.2 = getPix _ p.1 p.2
    apply getPix_setPix_ne hx hy
    intro hcon
    exact hne (Prod.ext hcon.1 hcon.2)

lemma reach_seq {img img' : Img} {t : Nat × Nat} (hp : Paints img img' (Reach img t))
    {n p : Nat × Nat} (h : Reach img n p) : Reach img t p ∨ Reach img' n p := by
  obtain ⟨hw, hh, hpt⟩ := hp
  induction h with
  | @refl h1 h2 =>
    by_cases ht : Reach img t n
    · exact Or.inl ht
    · refine Or.inr (Reach.refl (inB_of_dims hw hh h1) ?_)
      rw [(hpt n).2 ht]
      exact h2
  | @step q r hq ha hb hc ih =>
    rcases ih with ht | hr
    · exact Or.inl (Reach.step ht ha hb hc)
    · by_cases htr : Reach img t r
      · exact Or.inl htr
      · refine Or.inr (Reach.step hr ha (inB_of_dims hw hh hb) ?_)
        rw [(hpt r).2 htr]
        exact hc

lemma adj_cases {x y : Nat} {n : Nat × Nat} (h : adj (x, y) n) :
    (0 < x ∧ n = (x - 1, y)) ∨ (0 < y ∧ n = (x, y - 1))
      ∨ n = (x + 1, y) ∨ n = (x, y + 1) := by
  obtain ⟨n1, n2⟩ := n
  unfold adj at h
  simp only [Prod.mk.injEq] at *
  omega

lemma stage_paints {g : Nat}
    (ih : ∀ (i : Img) (a b : Nat), nonSep i ≤ g → Paints i (floodFillF g i a b) (Reach i (a, b)))
    (i : Img) (hni : nonSep i ≤ g) (c : Prop) [Decidable c] (a b : Nat) :
    Paints i (if c then floodFillF g i a b else i)
      (fun p => c ∧ Reach i (a, b) p) := by
  split
  · rename_i hc
    exact paints_congr (fun p => by tauto) (ih i a b hni)
  · rename_i hc
    exact paints_congr (fun p => by tauto) (paints_id i)

set_option maxHeartbeats 1000000 in
lemma floodFillF_spec : ∀ (f : Nat) (img : Img) (x y : Nat), nonSep img ≤ f →
    Paints img (floodFillF f img x y) (Reach img (x, y)) := by
  intro f
  induction f with
  | zero =>
    intro img x y hf
    have h0 : nonSep img = 0 := by omega
    have hsep : getPix img x y = SEPARATOR_COLOR := nonSep_zero h0 x y
    refine paints_congr (fun p => ?_) (paints_id img)
    constructor
    · exact False.elim
    · intro hR
      exact absurd hsep hR.src.2
  | succ g ih =>
    intro img x y hf
    by_cases hsep : getPix img x y = SEPARATOR_COLOR
    · rw [floodFillF_succ_eq, if_pos hsep]
      refine paints_congr (fun p => ?_) (paints_id img)
      constructor
      · exact False.elim
      · intro hR
        exact absurd hsep hR.src.2
    · rw [floodFillF_succ_eq, if_neg hsep]
      dsimp only
      obtain ⟨hx, hy⟩ := getPix_ne_sep_inB hsep
      have h1 : nonSep (setPix img x y SEPARATOR_COLOR) + 1 = nonSep img :=
        nonSep_setPix hx hy hsep
      set i1 := setPix img x y SEPARATOR_COLOR with hi1
      have hn1 : nonSep i1 ≤ g := by omega
      have p1 : Paints img i1 (fun p => p = (x, y)) := by
        rw [hi1]
        exact paints_setPix hx hy
      have P2 := stage_paints ih i1 hn1 (0 < x) (x - 1) y
      set i2 := if 0 < x then floodFillF g i1 (x - 1) y else i1 with hi2
      have hn2 : nonSep i2 ≤ g := by
        rw [hi2]
        split
        · exact le_trans (nonSep_floodFillF_le _ _ _ _) hn1
        · exact hn1
      have P3 := stage_paints ih i2 hn2 (0 < y) x (y - 1)
      set i3 := if 0 < y then floodFillF g i2 x (y - 1) else i2 with hi3
      have hn3 : nonSep i3 ≤ g := by
        rw [hi3]
        split
        · exact le_trans (nonSep_floodFillF_le _ _ _ _) hn2
        · exact hn2
      have P4 := stage_paints ih i3 hn3 (x + 1 < img.w) (x + 1) y
      set i4 := if x + 1 < img.w then floodFillF g i3 (x + 1) y else i3 with hi4
      have hn4 : nonSep i4 ≤ g := by
        rw [hi4]
        split
        · exact le_trans (nonSep_floodFillF_le _ _ _ _) hn3
        · exact hn3
      have P5 := stage_paints ih i4 hn4 (y + 1 < img.h) x (y + 1)
      have C : Paints img (if y + 1 < img.h then floodFillF g i4 x (y + 1) else i4)
          (fun p =>
            (((p = (x, y) ∨ (0 < x ∧ Reach i1 (x - 1, y) p))
              ∨ (0 < y ∧ Reach i2 (x, y - 1) p))
              ∨ (x + 1 < img.w ∧ Reach i3 (x + 1, y) p))
            ∨ (y + 1 < img.h ∧ Reach i4 (x, y + 1) p)) :=
        paints_comp (paints_comp (paints_comp (paints_comp p1 P2) P3) P4) P5
      have sub1 : Subimg i1 img := paints_subimg p1
      have sub2 : Subimg i2 img := subimg_trans (paints_subimg P2) sub1
      have sub3 : Subimg i3 img := subimg_trans (paints_subimg P3) sub2
      have sub4 : Subimg i4 img := subimg_trans (paints_subimg P4) sub3
      have extend : ∀ (n : Nat × Nat) (i' : Img), Subimg i' img → adj (x, y) n →
          ∀ p, Reach i' n p → Reach img (x, y) p := by
        intro n i' hsub hadj p hR
        have hR' := reach_mono hsub hR
        have hsrc := hR'.src
        exact Reach.trans (Reach.step (Reach.refl ⟨hx, hy⟩ hsep) hadj hsrc.1 hsrc.2) hR'
      refine paints_congr (fun p => ⟨?_, ?_⟩) C
      · rintro ((((rfl | ⟨hc, hR⟩) | ⟨hc, hR⟩) | ⟨hc, hR⟩) | ⟨hc, hR⟩)
        · exact Reach.refl ⟨hx, hy⟩ hsep
        · refine extend _ i1 sub1 ?_ _ hR
          unfold adj
          dsimp only
          omega
        · refine extend _ i2 sub2 ?_ _ hR
          unfold adj
          dsimp only
          omega
        · refine extend _ i3 sub3 ?_ _ hR
          unfold adj
          dsimp only
          omega
        · refine extend _ i4 sub4 ?_ _ hR
          unfold adj
          dsimp only
          omega
      · intro hR
        by_cases hps : p = (x, y)
        · exact Or.inl (Or.inl (Or.inl (Or.inl hps)))
        · obtain ⟨n, hadj, hRn0⟩ := reach_drop_start hR hps
          have hRn : Reach i1 n p := hRn0
          clear hRn0
          have step2 : Reach i1 n p → ((0 < x) ∧ Reach i1 (x - 1, y) p) ∨ Reach i2 n p := by
            intro hr
            by_cases hgx : 0 < x
            · have P2' : Paints i1 i2 (Reach i1 (x - 1, y)) :=
                paints_congr (fun q => by tauto) P2
              rcases reach_seq P2' hr with hl | hrr
              · exact Or.inl ⟨hgx, hl⟩
              · exact Or.inr hrr
            · have he : i2 = i1 := by rw [hi2, if_neg hgx]
              rw [he]
              exact Or.inr hr
          have step3 : Reach i2 n p → ((0 < y) ∧ Reach i2 (x, y - 1) p) ∨ Reach i3 n p := by
            intro hr
            by_cases hgy : 0 < y
            · have P3' : Paints i2 i3 (Reach i2 (x, y - 1)) :=
                paints_congr (fun q => by tauto) P3
              rcases reach_seq P3' hr with hl | hrr
              · exact Or.inl ⟨hgy, hl⟩
              · exact Or.inr hrr
            · have he : i3 = i2 := by rw [hi3, if_neg hgy]
              rw [he]
              exact Or.inr hr
          have step4 : Reach i3 n p → ((x + 1 < img.w) ∧ Reach i3 (x + 1, y) p) ∨ Reach i4 n p := by
            intro hr
            by_cases hgw : x + 1 < img.w
            · have P4' : Paints i3 i4 (Reach i3 (x + 1, y)) :=
                paints_congr (fun q => by tauto) P4
              rcases reach_seq P4' hr with hl | hrr
              · exact Or.inl ⟨hgw, hl⟩
              · exact Or.inr hrr
            · have he : i4 = i3 := by rw [hi4, if_neg hgw]
              rw [he]
              exact Or.inr hr
          rcases adj_cases hadj with ⟨hc, rfl⟩ | ⟨hc, rfl⟩ | rfl | rfl
          · exact Or.inl (Or.inl (Or.inl (Or.inr ⟨hc, hRn⟩)))
          · rcases step2 hRn with h2 | h2
            · exact Or.inl (Or.inl (Or.inl (Or.inr h2)))
            · exact Or.inl (Or.inl (Or.inr ⟨hc, h2⟩))
          · have hguard : x + 1 < img.w := hRn.src.1.1
            rcases step2 hRn with h2 | h2
            · exact Or.inl (Or.inl (Or.inl (Or.inr h2)))
            · rcases step3 h2 with h3 | h3
              · exact Or.inl (Or.inl (Or.inr h3))
              · exact Or.inl (Or.inr ⟨hguard, h3⟩)
          · have hguard : y + 1 < img.h := hRn.src.1.2
            rcases step2 hRn with h2 | h2
            · exact Or.inl (Or.inl (Or.inl (Or.inr h2)))
            · rcases step3 h2 with h3 | h3
              · exact Or.inl (Or.inl (Or.inr h3))
              · rcases step4 h3 with h4 | h4
                · exact Or.inl (Or.inr h4)
                · exact Or.inr ⟨hguard, h4⟩

lemma flood_fill_spec (img : Img) (x y : Nat) :
    Paints img (flood_fill img x y) (Reach img (x, y)) :=
  floodFillF_spec (nonSep img) img x y (le_refl _)

lemma has_add_entry_self (m : ColorMap) (c : Rgb8) (e : ColorEntry) :
    (m.add_entry c e).has c = true := by
  simp [ColorMap.has, ColorMap.add_entry, lookupAL_cons]

lemma has_add_entry_mono {m : ColorMap} {c0 : Rgb8} (c : Rgb8) (e : ColorEntry)
    (h : m.has c0 = true) : (m.add_entry c e).has c0 = true := by
  simp only [ColorMap.has, ColorMap.add_entry, lookupAL_cons]
  split
  · simp
  · exact h

lemma bool_not_false {b : Bool} (h : ¬ b = false) : b = true := by
  cases b
  · exact absurd rfl h
  · rfl

lemma buildLoop_newcolor_state (m : ColorMap) :
    ∀ img rows cur x y, ∀ c s1, buildLoop m img rows cur x y = (BuildState.NewColor c, s1) →
      getPix s1.img s1.x s1.y = c ∧ m.has c = false := by
  intro img rows cur x y
  induction img, rows, cur, x, y using buildLoop.induct m with
  | case1 img rows cur x y hy hx hsep ih =>
    intro c s1 h
    rw [buildLoop.eq_def, if_pos hy, if_pos hx, if_pos hsep] at h
    exact ih c s1 h
  | case2 img rows cur x y hy hx hsep hhas =>
    intro c s1 h
    rw [buildLoop.eq_def, if_pos hy, if_pos hx, if_neg hsep, if_pos hhas] at h
    simp only [Prod.mk.injEq, BuildState.NewColor.injEq] at h
    obtain ⟨rfl, rfl⟩ := h
    exact ⟨rfl, hhas⟩
  | case3 img rows cur x y hy hx hsep hhas ih =>
    intro c s1 h
    rw [buildLoop.eq_def, if_pos hy, if_pos hx, if_neg hsep, if_neg hhas] at h
    exact ih c s1 h
  | case4 img rows cur x y hy hx ih =>
    intro c s1 h
    rw [buildLoop.eq_def, if_pos hy, if_neg hx] at h
    by_cases hemp : cur.isEmpty = true
    · rw [if_pos hemp] at h
      rw [dif_pos hemp] at ih
      exact ih c s1 h
    · rw [if_neg hemp] at h
      rw [dif_neg hemp] at ih
      exact ih c s1 h
  | case5 img rows cur x y hy =>
    intro c s1 h
    rw [buildLoop.eq_def, if_neg hy] at h
    simp at h

lemma buildLoop_mono (m m' : ColorMap) (hmm : ∀ c, m.has c = true → m'.has c = true) :
    ∀ img rows cur x y,
      (∀ g s', buildLoop m img rows cur x y = (BuildState.Complete g, s') →
        buildLoop m' img rows cur x y = (BuildState.Complete g, s'))
      ∧ (∀ c s1, buildLoop m img rows cur x y = (BuildState.NewColor c, s1) →
          m'.has c = true →
          buildLoop m' img rows cur x y
            = buildLoop m' s1.img s1.rows s1.current_row s1.x s1.y) := by
  intro img rows cur x y
  induction img, rows, cur, x, y using buildLoop.induct m with
  | case1 img rows cur x y hy hx hsep ih =>
    constructor
    · intro g s' h
      rw [buildLoop.eq_def, if_pos hy, if_pos hx, if_pos hsep] at h
      rw [buildLoop.eq_def, if_pos hy, if_pos hx, if_pos hsep]
      exact ih.1 g s' h
    · intro c s1 h hc
      rw [buildLoop.eq_def, if_pos hy, if_pos hx, if_pos hsep] at h
      rw [buildLoop.eq_def, if_pos hy, if_pos hx, if_pos hsep]
      exact ih.2 c s1 h hc
  | case2 img rows cur x y hy hx hsep hhas =>
    constructor
    · intro g s' h
      rw [buildLoop.eq_def, if_pos hy, if_pos hx, if_neg hsep, if_pos hhas] at h
      simp at h
    · intro c s1 h hc
      rw [buildLoop.eq_def, if_pos hy, if_pos hx, if_neg hsep, if_pos hhas] at h
      simp only [Prod.mk.injEq, BuildState.NewColor.injEq] at h
      obtain ⟨rfl, rfl⟩ := h
      rfl
  | case3 img rows cur x y hy hx hsep hhas ih =>
    have hhas' : m'.has (getPix img x y) = true := hmm _ (bool_not_false hhas)
    constructor
    · intro g s' h
      rw [buildLoop.eq_def, if_pos hy, if_pos hx, if_neg hsep, if_neg hhas] at h
      rw [buildLoop.eq_def, if_pos hy, if_pos hx, if_neg hsep,
        if_neg (by rw [hhas']; simp)]
      exact ih.1 g s' h
    · intro c s1 h hc
      rw [buildLoop.eq_def, if_pos hy, if_pos hx, if_neg hsep, if_neg hhas] at h
      rw [buildLoop.eq_def, if_pos hy, if_pos hx, if_neg hsep,
        if_neg (by rw [hhas']; simp)]
      exact ih.2 c s1 h hc
  | case4 img rows cur x y hy hx ih =>
    constructor
    · intro g s' h
      rw [buildLoop.eq_def, if_pos hy, if_neg hx] at h
      rw [buildLoop.eq_def, if_pos hy, if_neg hx]
      by_cases hemp : cur.isEmpty = true
      · rw [if_pos hemp] at h ⊢
        rw [dif_pos hemp] at ih
        exact ih.1 g s' h
      · rw [if_neg hemp] at h ⊢
        rw [dif_neg hemp] at ih
        exact ih.1 g s' h
    · intro c s1 h hc
      rw [buildLoop.eq_def, if_pos hy, if_neg hx] at h
      rw [buildLoop.eq_def, if_pos hy, if_neg hx]
      by_cases hemp : cur.isEmpty = true
      · rw [if_pos hemp] at h ⊢
        rw [dif_pos hemp] at ih
        exact ih.2 c s1 h hc
      · rw [if_neg hemp] at h ⊢
        rw [dif_neg hemp] at ih
        exact ih.2 c s1 h hc
  | case5 img rows cur x y hy =>
    constructor
    · intro g s' h
      rw [buildLoop.eq_def, if_neg hy] at h
      rw [buildLoop.eq_def, if_neg hy]
      exact h
    · intro c s1 h hc
      rw [buildLoop.eq_def, if_neg hy] at h
      simp at h

lemma resumeLoop_build (naming : Rgb8 → ColorEntry) :
    ∀ (fuel : Nat) (s : RowBuilder) (m : ColorMap) (g : List (List Rgb8)) (mf : ColorMap),
      resumeLoop fuel (s.build m) m naming = some (g, mf) →
      (∀ c, m.has c = true → mf.has c = true)
        ∧ ∃ s', s.build mf = (BuildState.Complete g, s') := by
  intro fuel
  induction fuel with
  | zero =>
    intro s m g mf h
    rcases hb : s.build m with ⟨st, s1⟩
    rw [hb] at h
    cases st with
    | Complete g0 =>
      simp only [resumeLoop, Option.some.injEq, Prod.mk.injEq] at h
      obtain ⟨rfl, rfl⟩ := h
      exact ⟨fun c hc => hc, ⟨s1, hb⟩⟩
    | NewColor c =>
      simp [resumeLoop] at h
  | succ fuel ih =>
    intro s m g mf h
    rcases hb : s.build m with ⟨st, s1⟩
    rw [hb] at h
    cases st with
    | Complete g0 =>
      simp only [resumeLoop, Option.some.injEq, Prod.mk.injEq] at h
      obtain ⟨rfl, rfl⟩ := h
      exact ⟨fun c hc => hc, ⟨s1, hb⟩⟩
    | NewColor c =>
      obtain ⟨hpix, hnew⟩ := buildLoop_newcolor_state m s.img s.rows s.current_row s.x s.y c s1 hb
      rw [resumeLoop] at h
      unfold RowBuilder.continue_build at h
      rw [hpix] at h
      simp only at h
      obtain ⟨hmono1, s', hs'⟩ := ih s1 (m.add_entry c (naming c)) g mf h
      have hm : ∀ c0, m.has c0 = true → mf.has c0 = true :=
        fun c0 hc0 => hmono1 c0 (has_add_entry_mono c (naming c) hc0)
      have hcmf : mf.has c = true := hmono1 c (has_add_entry_self m c (naming c))
      refine ⟨hm, s', ?_⟩
      have hres := (buildLoop_mono m mf hm s.img s.rows s.current_row s.x s.y).2 c s1 hb hcmf
      show buildLoop mf s.img s.rows s.current_row s.x s.y = _
      rw [hres]
      exact hs'

lemma buildLoop_rows_inv (m : ColorMap) :
    ∀ img rows cur x y,
      (∀ r ∈ rows, r ≠ [] ∧ ∀ c ∈ r, c ≠ SEPARATOR_COLOR ∧ m.has c = true) →
      (∀ c ∈ cur, c ≠ SEPARATOR_COLOR ∧ m.has c = true) →
      ∀ g s', buildLoop m img rows cur x y = (BuildState.Complete g, s') →
        ∀ r ∈ g, r ≠ [] ∧ ∀ c ∈ r, c ≠ SEPARATOR_COLOR ∧ m.has c = true := by
  intro img rows cur x y
  induction img, rows, cur, x, y using buildLoop.induct m with
  | case1 img rows cur x y hy hx hsep ih =>
    intro hrows hcur g s' h
    rw [buildLoop.eq_def, if_pos hy, if_pos hx, if_pos hsep] at h
    exact ih hrows hcur g s' h
  | case2 img rows cur x y hy hx hsep hhas =>
    intro hrows hcur g s' h
    rw [buildLoop.eq_def, if_pos hy, if_pos hx, if_neg hsep, if_pos hhas] at h
    simp at h
  | case3 img rows cur x y hy hx hsep hhas ih =>
    intro hrows hcur g s' h
    rw [buildLoop.eq_def, if_pos hy, if_pos hx, if_neg hsep, if_neg hhas] at h
    refine ih hrows ?_ g s' h
    intro c hc
    rcases List.mem_append.mp hc with hc | hc
    · exact hcur c hc
    · simp only [List.mem_singleton] at hc
      subst hc
      exact ⟨hsep, bool_not_false hhas⟩
  | case4 img rows cur x y hy hx ih =>
    intro hrows hcur g s' h
    rw [buildLoop.eq_def, if_pos hy, if_neg hx] at h
    by_cases hemp : cur.isEmpty = true
    · rw [if_pos hemp] at h
      rw [dif_pos hemp] at ih
      exact ih hrows (by simp) g s' h
    · rw [if_neg hemp] at h
      rw [dif_neg hemp] at ih
      refine ih ?_ (by simp) g s' h
      intro r hr
      rcases List.mem_append.mp hr with hr | hr
      · exact hrows r hr
      · simp only [List.mem_singleton] at hr
        subst hr
        refine ⟨?_, hcur⟩
        intro hcon
        subst hcon
        simp at hemp
  | case5 img rows cur x y hy =>
    intro hrows hcur g s' h
    rw [buildLoop.eq_def, if_neg hy] at h
    simp only [Prod.mk.injEq, BuildState.Complete.injEq] at h
    obtain ⟨rfl, rfl⟩ := h
    exact hrows

set_option maxRecDepth 4000 in
lemma buildA1_new_eval :
    buildLoop ColorMap.new imgA1 [] [] 0 0
      = (BuildState.NewColor cA, ⟨imgA1, [], [], 0, 0⟩) := by
  rw [buildLoop.eq_def]
  norm_num [getPix, imgA1, cA, SEPARATOR_COLOR, ColorMap.has, ColorMap.new, lookupAL]

set_option maxRecDepth 4000 in
lemma buildA1_mW_eval :
    buildLoop mW imgA1 [] [] 0 0
      = (BuildState.Complete [[cA]], ⟨⟨1, 1, [SEPARATOR_COLOR], rfl⟩, [[cA]], [], 0, 1⟩) := by
  repeat rw [buildLoop.eq_def]; norm_num [getPix, imgA1, cA, SEPARATOR_COLOR, ColorMap.has,
    ColorMap.new, ColorMap.add_entry, mW, lookupAL, flood_fill, nonSep, floodFillF, setPix]

set_option maxRecDepth 4000 in
lemma runSegA1_eval :
    runSeg 1 (RowBuilder.new imgA1) ColorMap.new namingW = some ([[cA]], mW) := by
  unfold runSeg RowBuilder.build RowBuilder.new
  simp only
  rw [buildA1_new_eval]
  rw [resumeLoop]
  unfold RowBuilder.continue_build RowBuilder.build
  simp only
  have hg : getPix imgA1 0 0 = cA := by norm_num [getPix, imgA1]
  rw [hg]
  have hm : ColorMap.new.add_entry cA (namingW cA) = mW := by rfl
  rw [hm, buildA1_mW_eval]
  rfl

/-- C2: `continue_build` registers the label pair for the color of the
remembered resume pixel — the suspension state's `(x, y)` holds exactly the
reported unregistered color — and re-invokes `build` from that pixel, and any
interrupted run that ends in `Complete(grid)` yields the same grid as one
uninterrupted `build` over a registry pre-populated with the same label
assignments (the final registry of the interrupted run). -/
theorem c2_resumable_equiv :
    (∀ (m : ColorMap) (s : RowBuilder) (c : Rgb8) (s1 : RowBuilder),
        s.build m = (BuildState.NewColor c, s1) →
        getPix s1.img s1.x s1.y = c ∧ m.has c = false)
    ∧ (∀ (fuel : Nat) (img : Img) (m : ColorMap) (naming : Rgb8 → ColorEntry)
        (g : List (List Rgb8)) (mf : ColorMap),
        runSeg fuel (RowBuilder.new img) m naming = some (g, mf) →
        ∃ s', (RowBuilder.new img).build mf = (BuildState.Complete g, s')) := by
  constructor
  · intro m s c s1 h
    exact buildLoop_newcolor_state m s.img s.rows s.current_row s.x s.y c s1 h
  · intro fuel img m naming g mf h
    exact (resumeLoop_build naming fuel (RowBuilder.new img) m g mf h).2

/-- Witness for C2: a 1×1 image whose color is unregistered, one suspension,
then completion; the uninterrupted build over the final registry returns the
same grid. -/
theorem c2_resumable_equiv_witness :
    (getPix imgA1 0 0 = cA ∧ ColorMap.new.has cA = false)
    ∧ ∃ s', (RowBuilder.new imgA1).build mW = (BuildState.Complete [[cA]], s') :=
  ⟨c2_resumable_equiv.1 ColorMap.new (RowBuilder.new imgA1) cA ⟨imgA1, [], [], 0, 0⟩
      buildA1_new_eval,
   c2_resumable_equiv.2 1 imgA1 ColorMap.new namingW [[cA]] mW runSegA1_eval⟩

/-- C3: for every image and every sequence of `build`/`continue_build` calls
ending in `Complete(grid)`, no row of the grid is empty, no cell is the
separator color `(32, 32, 32)`, and every color in any row is registered in
the registry consulted during segmentation. -/
theorem c3_grid_invariants (fuel : Nat) (img : Img) (m : ColorMap)
    (naming : Rgb8 → ColorEntry) (g : List (List Rgb8)) (mf : ColorMap)
    (h : runSeg fuel (RowBuilder.new img) m naming = some (g, mf)) :
    ∀ r ∈ g, r ≠ [] ∧ ∀ c ∈ r, c ≠ SEPARATOR_COLOR ∧ mf.has c = true := by
  obtain ⟨hmono, s', hs'⟩ := resumeLoop_build naming fuel (RowBuilder.new img) m g mf h
  exact buildLoop_rows_inv mf img [] [] 0 0 (by simp) (by simp) g s' hs'

/-- Witness for C3 at the concrete 1×1 run, instantiated at its single row
and cell. -/
theorem c3_grid_invariants_witness :
    [cA] ≠ [] ∧ cA ≠ SEPARATOR_COLOR ∧ mW.has cA = true :=
  ⟨(c3_grid_invariants 1 imgA1 ColorMap.new namingW [[cA]] mW runSegA1_eval
      [cA] (by simp)).1,
   (c3_grid_invariants 1 imgA1 ColorMap.new namingW [[cA]] mW runSegA1_eval
      [cA] (by simp)).2 cA (by simp)⟩

lemma paints_sep_preserved {imgA imgB : Img} {S : Nat × Nat → Prop}
    (h : Paints imgA imgB S) {p : Nat × Nat}
    (hp : getPix2 imgA p = SEPARATOR_COLOR) : getPix2 imgB p = SEPARATOR_COLOR := by
  obtain ⟨_, _, hpt⟩ := h
  by_cases hs : S p
  · exact (hpt p).1 hs
  · rw [(hpt p).2 hs]
    exact hp

lemma reach_lift {imgA imgB : Img} (hw : imgB.w = imgA.w) (hh : imgB.h = imgA.h)
    {t p : Nat × Nat} (h : Reach imgA t p)
    (hag : ∀ u, Reach imgA t u → getPix2 imgB u = getPix2 imgA u) :
    Reach imgB t p := by
  induction h with
  | refl h1 h2 =>
    refine Reach.refl (inB_of_dims hw hh h1) ?_
    rw [hag t (Reach.refl h1 h2)]
    exact h2
  | @step q r hq ha hb hc ih =>
    refine Reach.step ih ha (inB_of_dims hw hh hb) ?_
    rw [hag r (Reach.step hq ha hb hc)]
    exact hc

lemma pairwise_ne_not_reach {img0 : Img} {starts : List (Nat × Nat)}
    (hpw : List.Pairwise (fun a b => ¬ Reach img0 a b) starts)
    {a b : Nat × Nat} (ha : a ∈ starts) (hb : b ∈ starts) (hne : a ≠ b) :
    ¬ Reach img0 a b := by
  have hsymm : Symmetric (fun a b => ¬ Reach img0 a b) :=
    fun _ _ huv hr => huv hr.symm
  exact List.Pairwise.forall hsymm hpw ha hb hne

set_option maxHeartbeats 1000000 in
lemma buildLoop_consumes (m : ColorMap) :
    ∀ img rows cur x y, ∀ (img0 : Img) (starts : List (Nat × Nat)),
      Paints img0 img (fun p => ∃ s ∈ starts, Reach img0 s p) →
      (∀ px py, px < img0.w → py < img0.h → (py < y ∨ (py = y ∧ px < x)) →
        getPix img px py = SEPARATOR_COLOR) →
      rows.flatten ++ cur = starts.map (fun s => getPix2 img0 s) →
      List.Pairwise (fun a b => ¬ Reach img0 a b) starts →
      (∀ s ∈ starts, Reach img0 s s) →
      (img0.h ≤ y → cur = []) →
      ∀ g s', buildLoop m img rows cur x y = (BuildState.Complete g, s') →
        ∃ starts' : List (Nat × Nat),
          g.flatten = starts'.map (fun s => getPix2 img0 s)
          ∧ List.Pairwise (fun a b => ¬ Reach img0 a b) starts'
          ∧ (∀ s ∈ starts', Reach img0 s s)
          ∧ (∀ p : Nat × Nat, inB img0 p → getPix2 img0 p ≠ SEPARATOR_COLOR →
              ∃ s ∈ starts', Reach img0 s p)
          ∧ (∀ p : Nat × Nat, getPix2 s'.img p = SEPARATOR_COLOR) := by
  intro img rows cur x y
  induction img, rows, cur, x, y using buildLoop.induct m with
  | case1 img rows cur x y hy hx hsep ih =>
    intro img0 starts hpaints hprior hent hpw hok hdone g s' h
    rw [buildLoop.eq_def, if_pos hy, if_pos hx, if_pos hsep] at h
    refine ih img0 starts hpaints ?_ hent hpw hok hdone g s' h
    intro px py h1 h2 h3
    rcases h3 with h3 | ⟨rfl, h3⟩
    · exact hprior px py h1 h2 (Or.inl h3)
    · by_cases hpx : px = x
      · subst hpx
        exact hsep
      · exact hprior px py h1 h2 (Or.inr ⟨rfl, by omega⟩)
  | case2 img rows cur x y hy hx hsep hhas =>
    intro img0 starts hpaints hprior hent hpw hok hdone g s' h
    rw [buildLoop.eq_def, if_pos hy, if_pos hx, if_neg hsep, if_pos hhas] at h
    simp at h
  | case3 img rows cur x y hy hx hsep hhas ih =>
    intro img0 starts hpaints hprior hent hpw hok hdone g s' h
    rw [buildLoop.eq_def, if_pos hy, if_pos hx, if_neg hsep, if_neg hhas] at h
    have hw : img.w = img0.w := hpaints.1
    have hh : img.h = img0.h := hpaints.2.1
    have hx0 : x < img0.w := by rw [← hw]; exact hx
    have hy0 : y < img0.h := by rw [← hh]; exact hy
    have hnotp : ¬ ∃ s ∈ starts, Reach img0 s (x, y) := by
      intro hex
      exact hsep ((hpaints.2.2 (x, y)).1 hex)
    have heq0 : getPix2 img (x, y) = getPix2 img0 (x, y) := (hpaints.2.2 (x, y)).2 hnotp
    have hsep0 : getPix2 img0 (x, y) ≠ SEPARATOR_COLOR := by
      rw [← heq0]
      exact hsep
    have hRt : Reach img0 (x, y) (x, y) := Reach.refl ⟨hx0, hy0⟩ hsep0
    have FP := flood_fill_spec img x y
    have hsub : Subimg img img0 := paints_subimg hpaints
    have hiff : ∀ p, Reach img (x, y) p ↔
        (Reach img0 (x, y) p ∧ ¬ ∃ s ∈ starts, Reach img0 s p) := by
      intro p
      constructor
      · intro hr
        refine ⟨reach_mono hsub hr, ?_⟩
        intro hex
        exact hr.dst.2 ((hpaints.2.2 p).1 hex)
      · rintro ⟨hr, _⟩
        refine reach_lift hw hh hr ?_
        intro u hu
        refine (hpaints.2.2 u).2 ?_
        rintro ⟨s, hsst, hsu⟩
        exact hnotp ⟨s, hsst, hsu.trans hu.symm⟩
    have hpixeq : getPix img x y = getPix2 img0 (x, y) := heq0
    refine ih img0 (starts ++ [(x, y)]) ?_ ?_ ?_ ?_ ?_ ?_ g s' h
    · have hcomp := paints_comp hpaints FP
      refine paints_congr (fun p => ?_) hcomp
      constructor
      · rintro (⟨s, hs, hsp⟩ | hr)
        · exact ⟨s, List.mem_append_left _ hs, hsp⟩
        · exact ⟨(x, y), List.mem_append_right _ (by simp), ((hiff p).mp hr).1⟩
      · rintro ⟨s, hs, hsp⟩
        rcases List.mem_append.mp hs with hs | hs
        · exact Or.inl ⟨s, hs, hsp⟩
        · simp only [List.mem_singleton] at hs
          subst hs
          by_cases hex : ∃ s ∈ starts, Reach img0 s p
          · exact Or.inl hex
          · exact Or.inr ((hiff p).mpr ⟨hsp, hex⟩)
    · intro px py h1 h2 h3
      rcases h3 with h3 | ⟨hpy, h3⟩
      · have hsp : getPix2 img (px, py) = SEPARATOR_COLOR :=
          hprior px py h1 h2 (Or.inl h3)
        exact paints_sep_preserved FP hsp
      · by_cases hpx : px = x
        · have h6 : Reach img (x, y) (px, py) := by
            rw [hpx, hpy]
            exact Reach.refl ⟨hx, hy⟩ hsep
          exact (FP.2.2 (px, py)).1 h6
        · have hsp : getPix2 img (px, py) = SEPARATOR_COLOR :=
            hprior px py h1 h2 (Or.inr ⟨hpy, by omega⟩)
          exact paints_sep_preserved FP hsp
    · rw [List.map_append, ← hent, ← List.append_assoc]
      simp [hpixeq]
    · rw [List.pairwise_append]
      refine ⟨hpw, by simp, ?_⟩
      intro a ha b hb
      simp only [List.mem_singleton] at hb
      subst hb
      intro hr
      exact hnotp ⟨a, ha, hr⟩
    · intro s hs
      rcases List.mem_append.mp hs with hs | hs
      · exact hok s hs
      · simp only [List.mem_singleton] at hs
        subst hs
        exact hRt
    · intro hcon
      exact absurd hcon (by omega)
  | case4 img rows cur x y hy hx ih =>
    intro img0 starts hpaints hprior hent hpw hok hdone g s' h
    rw [buildLoop.eq_def, if_pos hy, if_neg hx] at h
    have hw : img.w = img0.w := hpaints.1
    have hprior' : ∀ px py, px < img0.w → py < img0.h →
        (py < y + 1 ∨ (py = y + 1 ∧ px < 0)) →
        getPix img px py = SEPARATOR_COLOR := by
      intro px py h1 h2 h3
      rcases h3 with h3 | ⟨_, h3⟩
      · by_cases hpy : py = y
        · subst hpy
          exact hprior px py h1 h2 (Or.inr ⟨rfl, by omega⟩)
        · exact hprior px py h1 h2 (Or.inl (by omega))
      · exact absurd h3 (by omega)
    by_cases hemp : cur.isEmpty = true
    · rw [if_pos hemp] at h
      rw [dif_pos hemp] at ih
      have hcur : cur = [] := by
        cases cur
        · rfl
        · simp at hemp
      refine ih img0 starts hpaints hprior' ?_ hpw hok (fun _ => rfl) g s' h
      rw [hcur] at hent
      simpa using hent
    · rw [if_neg hemp] at h
      rw [dif_neg hemp] at ih
      refine ih img0 starts hpaints hprior' ?_ hpw hok (fun _ => rfl) g s' h
      rw [List.flatten_append]
      simpa using hent
  | case5 img rows cur x y hy =>
    intro img0 starts hpaints hprior hent hpw hok hdone g s' h
    rw [buildLoop.eq_def, if_neg hy] at h
    simp only [Prod.mk.injEq, BuildState.Complete.injEq] at h
    obtain ⟨rfl, rfl⟩ := h
    have hw : img.w = img0.w := hpaints.1
    have hh : img.h = img0.h := hpaints.2.1
    have hcur : cur = [] := hdone (by omega)
    refine ⟨starts, ?_, hpw, hok, ?_, ?_⟩
    · rw [hcur] at hent
      simpa using hent
    · intro p hp hnsep
      obtain ⟨hp1, hp2⟩ := hp
      by_contra hnex
      have hps : getPix2 img p = SEPARATOR_COLOR :=
        hprior p.1 p.2 hp1 hp2 (Or.inl (by omega))
      have hunp : getPix2 img p = getPix2 img0 p := (hpaints.2.2 p).2 hnex
      rw [hps] at hunp
      exact hnsep hunp.symm
    · intro p
      by_cases hp : inB img0 p
      · obtain ⟨hp1, hp2⟩ := hp
        exact hprior p.1 p.2 hp1 hp2 (Or.inl (by omega))
      · show getPix _ p.1 p.2 = _
        apply getPix_oob
        intro hcon
        refine hp ⟨?_, ?_⟩
        · rw [← hw]
          exact hcon.1
        · rw [← hh]
          exact hcon.2

/-- C1 counterexample: in the 2×1 buffer `imgAB` the pixel at `(1, 0)` has a
different (non-separator) color than the starting pixel `(0, 0)`, yet
`flood_fill` from `(0, 0)` repaints it to the separator color: the source
flood fill never compares against the starting pixel's color, so it consumes
every 4-connected non-separator pixel, not just those of the start color. -/
theorem c1_flood_fill_counterexample :
    getPix imgAB 1 0 ≠ getPix imgAB 0 0
    ∧ getPix imgAB 1 0 ≠ SEPARATOR_COLOR
    ∧ getPix imgAB 0 0 ≠ SEPARATOR_COLOR
    ∧ getPix (flood_fill imgAB 0 0) 1 0 = SEPARATOR_COLOR := by decide

set_option maxRecDepth 4000 in
lemma buildAB_eval :
    buildLoop mW imgAB [] [] 0 0
      = (BuildState.Complete [[cA]],
          ⟨⟨2, 1, [SEPARATOR_COLOR, SEPARATOR_COLOR], rfl⟩, [[cA]], [], 0, 1⟩) := by
  repeat rw [buildLoop.eq_def]; norm_num [getPix, imgAB, cA, cB, SEPARATOR_COLOR, ColorMap.has,
    ColorMap.new, ColorMap.add_entry, mW, lookupAL, flood_fill, nonSep, floodFillF, setPix]

/-- C1 (amended): `flood_fill` repaints to the separator color exactly the
4-connected region of non-separator pixels reachable from the starting
coordinate (and changes no other pixel); consequently, after a complete
`build`, every non-separator pixel belongs to exactly one consumed region,
and each 4-connected non-separator blob contributes exactly one entry —
colored by the first pixel of the blob the scan reached — to exactly one row
(the grid cells, in order, are exactly the colors of the flood-fill start
pixels, one per consumed region, and the final buffer is fully consumed). -/
theorem c1_flood_fill_amended :
    (∀ (img : Img) (x y : Nat), x < img.w → y < img.h →
      ∀ p : Nat × Nat,
        (Reach img (x, y) p → getPix2 (flood_fill img x y) p = SEPARATOR_COLOR)
        ∧ (¬ Reach img (x, y) p → getPix2 (flood_fill img x y) p = getPix2 img p))
    ∧ (∀ (m : ColorMap) (img : Img) (g : List (List Rgb8)) (s' : RowBuilder),
        buildLoop m img [] [] 0 0 = (BuildState.Complete g, s') →
        ∃ starts : List (Nat × Nat),
          g.flatten = starts.map (fun s => getPix2 img s)
          ∧ (∀ p : Nat × Nat, inB img p → getPix2 img p ≠ SEPARATOR_COLOR →
              ∃! s, s ∈ starts ∧ Reach img s p)
          ∧ (∀ p : Nat × Nat, getPix2 s'.img p = SEPARATOR_COLOR)) := by
  constructor
  · intro img x y _ _ p
    exact (flood_fill_spec img x y).2.2 p
  · intro m img g s' h
    obtain ⟨starts, he, hpw, hok, hcov, hall⟩ :=
      buildLoop_consumes m img [] [] 0 0 img []
        (paints_congr (fun p => by simp) (paints_id img))
        (fun px py h1 h2 h3 => absurd h3 (by omega))
        (by simp)
        List.Pairwise.nil
        (by simp)
        (fun _ => rfl) g s' h
    refine ⟨starts, he, ?_, hall⟩
    intro p hp hnsep
    obtain ⟨s, hs, hR⟩ := hcov p hp hnsep
    refine ⟨s, ⟨hs, hR⟩, ?_⟩
    rintro t ⟨ht, hRt⟩
    by_contra hne
    exact pairwise_ne_not_reach hpw ht hs hne (hRt.trans hR.symm)

/-- Witness for the amended C1: flood fill on the concrete 2×1 buffer, and the
complete build of that buffer with its color registered, which consumes both
pixels into one region and one grid cell. -/
theorem c1_flood_fill_amended_witness :
    (∀ p : Nat × Nat,
      (Reach imgAB (0, 0) p → getPix2 (flood_fill imgAB 0 0) p = SEPARATOR_COLOR)
      ∧ (¬ Reach imgAB (0, 0) p → getPix2 (flood_fill imgAB 0 0) p = getPix2 imgAB p))
    ∧ ∃ starts : List (Nat × Nat),
        List.flatten [[cA]] = starts.map (fun s => getPix2 imgAB s)
        ∧ (∀ p : Nat × Nat, inB imgAB p → getPix2 imgAB p ≠ SEPARATOR_COLOR →
            ∃! s, s ∈ starts ∧ Reach imgAB s p)
        ∧ (∀ p : Nat × Nat,
            getPix2 (RowBuilder.mk ⟨2, 1, [SEPARATOR_COLOR, SEPARATOR_COLOR], rfl⟩
              [[cA]] [] 0 1).img p = SEPARATOR_COLOR) :=
  ⟨c1_flood_fill_amended.1 imgAB 0 0 (by decide) (by decide),
   c1_flood_fill_amended.2 mW imgAB [[cA]] _ buildAB_eval⟩
